import Mathlib

/-!
Verification development for the llama fine-tuning pipeline
(`src/index.js`: `DataProcessor` and `ModelTrainer`).

The JavaScript source is shallowly embedded: each method becomes a pure
Lean function over explicit state.  Strings are modelled as Lean
`String` (lists of characters; JS `length` counts UTF-16 code units,
which coincides with the character count on the ASCII inputs used
throughout).  JS numbers are modelled as exact rationals `ℚ`.
-/

/-! ### String normalisation used by `DataProcessor.cleanData`

The source applies, to each accepted record,
`prompt.trim().replace(/\s+/g, ' ').replace(/[^\w\s.,?!-]/g, '')`.
We model the JS whitespace class `\s` by the ASCII whitespace
characters and `\w` by `[A-Za-z0-9_]`. -/

/-- JS `\s` (restricted to ASCII): space, tab, newline, carriage
return, vertical tab, form feed. -/
def isJsSpace (c : Char) : Bool :=
  c = ' ' || c = '\t' || c = '\n' || c = '\r' || c = '\x0b' || c = '\x0c'

/-- JS `\w`: `[A-Za-z0-9_]`. -/
def isWordChar (c : Char) : Bool :=
  c.isAlpha || c.isDigit || c = '_'

/-- Character class kept by the final `replace(/[^\w\s.,?!-]/g, '')`. -/
def isKeptChar (c : Char) : Bool :=
  isWordChar c || isJsSpace c || c = '.' || c = ',' || c = '?' || c = '!' || c = '-'

/-- JS `String.prototype.trim`: strip whitespace from both ends. -/
def jsTrim (l : List Char) : List Char :=
  ((l.dropWhile isJsSpace).reverse.dropWhile isJsSpace).reverse

/-- JS `replace(/\s+/g, ' ')`, one character at a time: the flag
records whether we are inside a run of whitespace, so that each maximal
run contributes a single space. -/
def collapseWsAux : Bool → List Char → List Char
  | _, [] => []
  | inRun, c :: rest =>
    if isJsSpace c then
      if inRun then collapseWsAux true rest
      else ' ' :: collapseWsAux true rest
    else c :: collapseWsAux false rest

/-- JS `replace(/\s+/g, ' ')`: each maximal run of whitespace becomes a
single space. -/
def collapseWs (l : List Char) : List Char :=
  collapseWsAux false l

/-- JS `replace(/[^\w\s.,?!-]/g, '')`: delete every character outside
the kept class. -/
def stripChars (l : List Char) : List Char :=
  l.filter isKeptChar

/-- The full normalisation `trim` → collapse whitespace → strip
characters, as applied in `cleanData`. -/
def normalizePrompt (s : String) : String :=
  ⟨stripChars (collapseWs (jsTrim s.data))⟩

/-! ### Records -/

/-- A raw record from the input file.  `prompt` is `none` when the JS
object lacks the field (`undefined`); JS `!item.prompt` is also true
for the empty string, which we check separately. -/
structure RawRecord where
  prompt : Option String
  input : Option String := none
  output : Option String := none
deriving DecidableEq, Repr

/-- Length of an optional prompt (0 when absent), mirroring JS
`item.prompt.length` on present prompts. -/
def promptLen : Option String → ℕ
  | none => 0
  | some s => s.length

/-! ### `DataProcessor.cleanData`

The method filters `data`; for each item it
(1) rejects when `!item.prompt || item.prompt.length < 10`,
(2) rejects when some entry of `this.processedData` has a `prompt`
field strictly equal (`===`) to the item's (raw, pre-normalisation)
prompt, and
(3) otherwise assigns the normalised prompt back onto the same object
(in-place mutation) and keeps it.
`this.processedData` is only ever written by `saveProcessedData`, after
cleaning, so during one `processData` run it holds the value from
construction time (`[]`).  We pass the accumulator's `.prompt`
projections explicitly as `processed` (entries without a `prompt` field
compare as `undefined`, i.e. `none`, and never equal a present
prompt). -/

/-- The acceptance test of the `cleanData` filter, before the in-place
normalisation: prompt present, non-empty, at least 10 characters, and
not equal to the `prompt` field of any accumulated processed record. -/
def cleanAccepts (processed : List (Option String)) (r : RawRecord) : Bool :=
  match r.prompt with
  | none => false
  | some p =>
    if p = "" || p.length < 10 then false
    else !(processed.any (fun q => q = some p))

/-- The in-place update `item.prompt = item.prompt.trim()...` performed
on accepted records. -/
def normalizeRecord (r : RawRecord) : RawRecord :=
  { r with prompt := r.prompt.map normalizePrompt }

/-- `DataProcessor.cleanData`: the value returned by the filter (the
accepted records, already carrying their mutated prompts). -/
def cleanData (processed : List (Option String)) : List RawRecord → List RawRecord
  | [] => []
  | item :: rest =>
    if cleanAccepts processed item then
      normalizeRecord item :: cleanData processed rest
    else
      cleanData processed rest

/-- The state of the input array after `cleanData` returns: the filter
callback mutated every accepted item's `prompt` in place, so the caller
still holds a list in which accepted items are normalised and rejected
items are untouched. -/
def cleanDataPost (processed : List (Option String)) : List RawRecord → List RawRecord
  | [] => []
  | item :: rest =>
    (if cleanAccepts processed item then normalizeRecord item else item)
      :: cleanDataPost processed rest


/-! ### `DataProcessor.getGPT4Responses`

The method walks the input in batches of 5 (`data.slice(i, i + 5)`),
maps each item of a batch to either `{ prompt, response }` or `null`
(on a failed API call), awaits the whole batch (`Promise.all`
preserves the positional order of the mapped array regardless of
completion order), filters the `null`s out and appends the batch's
survivors to the accumulated result; it then sleeps between batches
(the delay has no effect on the value).  The external API call is
modelled by an oracle `gen : ℕ → Option String` giving, for the item
at each global position, the generated text or `none` on failure. -/

/-- A record entering the response-collection stage: `{ prompt }`. -/
structure AugRecord where
  prompt : String
deriving DecidableEq, Repr

/-- A record produced by the response-collection stage:
`{ prompt, response }`. -/
structure ResponseRecord where
  prompt : String
  response : String
deriving DecidableEq, Repr

/-- One mapped item of a batch: the API outcome for position `i`
paired with the item's own prompt, or `none` (JS `null`) on failure. -/
def respond (gen : ℕ → Option String) (i : ℕ) (item : AugRecord) : Option ResponseRecord :=
  (gen i).map (fun text => ⟨item.prompt, text⟩)

/-- The array produced by `batch.map(...)` before filtering, for a
batch starting at global position `i`. -/
def batchResponses (gen : ℕ → Option String) : ℕ → List AugRecord → List (Option ResponseRecord)
  | _, [] => []
  | i, item :: rest => respond gen i item :: batchResponses gen (i + 1) rest

/-- `DataProcessor.getGPT4Responses` from global position `i`: batches
of 5, each batch mapped, filtered of `null`s and appended in order. -/
def getGPT4Responses (gen : ℕ → Option String) (i : ℕ) (data : List AugRecord) :
    List ResponseRecord :=
  if h : data = [] then []
  else
    (batchResponses gen i (data.take 5)).reduceOption
      ++ getGPT4Responses gen (i + 5) (data.drop 5)
termination_by data.length
decreasing_by
  have hp : 0 < data.length := List.length_pos.mpr h
  simp only [List.length_drop]
  omega

/-! ### `DataProcessor.balanceDataset`

The source computes
`avg = Σ lengths / lengths.length`,
`stdDev = sqrt(Σ (length − avg)² / lengths.length)` (population
standard deviation), and keeps exactly the records with
`length > avg - 2*stdDev && length < avg + 2*stdDev`.
Since `stdDev = √variance ≥ 0`, that pair of strict comparisons is
equivalent to `(length − avg)² < 4·variance` (see
`twoSigmaBand_iff_sq`), which is how we encode the predicate to stay
inside `ℚ`.  When the variance is 0 the predicate is
`(length − avg)² < 0`, i.e. false for every record, exactly as the
source's `L > L && L < L`.  On empty input the source divides 0 by 0
(JS `NaN`, every comparison false); the model's value of `0 / 0` is
irrelevant because filtering the empty list yields `[]` either way. -/

/-- Mean response length (`avgLength` in the source). -/
def avgLength (data : List ResponseRecord) : ℚ :=
  (data.map (fun item => (item.response.length : ℚ))).sum / (data.length : ℚ)

/-- Population variance of the response lengths (the square of the
source's `stdDev`). -/
def popVariance (data : List ResponseRecord) : ℚ :=
  (data.map (fun item => ((item.response.length : ℚ) - avgLength data) ^ 2)).sum
    / (data.length : ℚ)

/-- The filter predicate
`length > avg - 2*stdDev && length < avg + 2*stdDev`, encoded with the
variance as explained above. -/
def keepsRecord (data : List ResponseRecord) (item : ResponseRecord) : Bool :=
  ((item.response.length : ℚ) - avgLength data) ^ 2 < 4 * popVariance data

/-- `DataProcessor.balanceDataset`: single static pass, statistics
computed once over the full set. -/
def balanceDataset (data : List ResponseRecord) : List ResponseRecord :=
  data.filter (keepsRecord data)

/-! ### `ModelTrainer`: learning-rate schedule and training loop

`trainingConfig` is set in the constructor and never reassigned;
`adjustLearningRate` writes `this.model.optimizer.learningRate`, which
we model by threading the optimizer's current rate through the loop
state.  `validateEpoch`'s loss for epoch `e` is supplied by an oracle
`losses : ℕ → ℚ` (the synthetic validation-loss sequence of the
spec). -/

/-- The fields of `this.trainingConfig` relevant to the schedule. -/
structure TrainerConfig where
  learningRate : ℚ
  warmupSteps : ℕ
deriving DecidableEq, Repr

/-- The constructor's `trainingConfig`: `learningRate: 1e-5`,
`warmupSteps: 500`. -/
def defaultConfig : TrainerConfig :=
  { learningRate := 1 / 100000, warmupSteps := 500 }

/-- `ModelTrainer.adjustLearningRate`: when `epoch > warmupSteps` set
the optimizer rate to
`trainingConfig.learningRate * 0.95 ** Math.floor(epoch / 2)`
(recomputed from the constructor's base rate — `trainingConfig` is
never mutated); otherwise leave the optimizer rate unchanged. -/
def adjustLearningRate (cfg : TrainerConfig) (epoch : ℕ) (lr : ℚ) : ℚ :=
  if epoch > cfg.warmupSteps then
    cfg.learningRate * (95 / 100 : ℚ) ^ (epoch / 2)
  else lr

/-- `maxPatience` in `ModelTrainer.trainingLoop`. -/
def maxPatience : ℕ := 3

/-- The mutable state of `ModelTrainer.trainingLoop`: `bestLoss`
(`none` models the initial `Infinity`), `patienceCount`, the epochs
for which `saveCheckpoint` ran (most recent first), and the
optimizer's learning rate. -/
structure LoopState where
  bestLoss : Option ℚ
  patienceCount : ℕ
  checkpoints : List ℕ
  lr : ℚ
deriving DecidableEq, Repr

/-- `validMetrics.loss < bestLoss` (true against the initial
`Infinity`). -/
def lossImproves (l : ℚ) : Option ℚ → Bool
  | none => true
  | some b => l < b

/-- The body of one loop iteration after validation: on improvement
update best, reset patience, checkpoint the epoch; otherwise increment
patience and report whether `patienceCount >= maxPatience` fired the
`break`. -/
def epochDecision (epoch : ℕ) (l : ℚ) (s : LoopState) : LoopState × Bool :=
  if lossImproves l s.bestLoss then
    ({ bestLoss := some l, patienceCount := 0,
       checkpoints := epoch :: s.checkpoints, lr := s.lr }, false)
  else
    ({ s with patienceCount := s.patienceCount + 1 },
      decide (s.patienceCount + 1 ≥ maxPatience))

/-- `ModelTrainer.trainingLoop`, iterating `epoch` from its current
value with `rem` epochs of budget left.  Returns the final state, the
last epoch that was executed, and whether early stopping fired.  When
the epoch does not `break`, `adjustLearningRate` runs before the next
iteration. -/
def trainingLoopAux (cfg : TrainerConfig) (losses : ℕ → ℚ) :
    ℕ → ℕ → LoopState → LoopState × ℕ × Bool
  | 0, epoch, s => (s, epoch - 1, false)
  | rem + 1, epoch, s =>
    match epochDecision epoch (losses epoch) s with
    | (s1, true) => (s1, epoch, true)
    | (s1, false) =>
      trainingLoopAux cfg losses rem (epoch + 1)
        { s1 with lr := adjustLearningRate cfg epoch s1.lr }

/-- `ModelTrainer.trainingLoop` for `epoch = 1 .. epochs`, starting
from `bestLoss = Infinity`, `patienceCount = 0`, no checkpoints, and
the optimizer rate from `tf.train.adam(learningRate)`. -/
def trainingLoop (cfg : TrainerConfig) (losses : ℕ → ℚ) (epochs : ℕ) :
    LoopState × ℕ × Bool :=
  trainingLoopAux cfg losses epochs 1
    { bestLoss := none, patienceCount := 0, checkpoints := [], lr := cfg.learningRate }

/-- The synthetic validation-loss sequence
`[1.0, 0.9, 0.95, 0.96, 0.97]` of the spec's early-stopping test,
indexed by epoch (written with `mkRat` so the values evaluate). -/
def synthLosses : ℕ → ℚ
  | 1 => mkRat 10 10
  | 2 => mkRat 9 10
  | 3 => mkRat 95 100
  | 4 => mkRat 96 100
  | 5 => mkRat 97 100
  | _ => 0


/-- A record with a 10-character response. -/
def rLen10 (p : String) : ResponseRecord :=
  ⟨p, "aaaaaaaaaa"⟩

/-- A record with a 100-character response. -/
def rLen100 : ResponseRecord :=
  ⟨"p5", ⟨List.replicate 100 'b'⟩⟩

set_option maxRecDepth 8000

/-- The spec's balance test set: response lengths `[10,10,10,10,100]`. -/
def data5 : List ResponseRecord :=
  [rLen10 "p1", rLen10 "p2", rLen10 "p3", rLen10 "p4", rLen100]


/-- A prompt that `cleanData`'s second application would accept again
unchanged: present, at least 10 characters, and a fixed point of the
normalisation. -/
def stablePrompt : Option String → Bool
  | none => false
  | some p => decide (10 ≤ p.length) && decide (normalizePrompt p = p)

/-! ## Theorems -/

/-! ### Helper lemmas about `cleanData` -/

/-- `cleanData` processes the batch element-wise against the fixed
accumulator: it distributes over concatenation. -/
theorem cleanData_append (ps : List (Option String)) (l1 l2 : List RawRecord) :
    cleanData ps (l1 ++ l2) = cleanData ps l1 ++ cleanData ps l2 := by
  induction l1 with
  | nil => simp [cleanData]
  | cons a t ih =>
    by_cases h : cleanAccepts ps a <;> simp [cleanData, h, ih]

/-- Every output record of `cleanData` is the normalisation of an
accepted input record. -/
theorem cleanData_mem (ps : List (Option String)) (l : List RawRecord) (r : RawRecord)
    (hr : r ∈ cleanData ps l) :
    ∃ raw, raw ∈ l ∧ cleanAccepts ps raw = true ∧ r = normalizeRecord raw := by
  induction l with
  | nil => simp [cleanData] at hr
  | cons a t ih =>
    by_cases h : cleanAccepts ps a
    · rw [cleanData, if_pos h] at hr
      rcases List.mem_cons.mp hr with h1 | h2
      · exact ⟨a, List.mem_cons_self a t, h, h1⟩
      · obtain ⟨raw, hm, ha, he⟩ := ih h2
        exact ⟨raw, List.mem_cons_of_mem a hm, ha, he⟩
    · rw [cleanData, if_neg h] at hr
      obtain ⟨raw, hm, ha, he⟩ := ih hr
      exact ⟨raw, List.mem_cons_of_mem a hm, ha, he⟩

/-- The acceptance test, unfolded on a present prompt. -/
theorem cleanAccepts_some (ps : List (Option String)) (p : String) (r : RawRecord)
    (hp : r.prompt = some p) :
    cleanAccepts ps r
      = if p = "" || p.length < 10 then false else !(ps.any fun q => q = some p) := by
  unfold cleanAccepts
  rw [hp]

/-- An accepted record's prompt is present. -/
theorem cleanAccepts_isSome (ps : List (Option String)) (raw : RawRecord)
    (h : cleanAccepts ps raw = true) : ∃ p, raw.prompt = some p := by
  cases hp : raw.prompt with
  | none =>
    unfold cleanAccepts at h
    rw [hp] at h
    exact absurd h (by simp)
  | some p => exact ⟨p, rfl⟩

/-- An accepted record's raw prompt has at least 10 characters. -/
theorem cleanAccepts_length (ps : List (Option String)) (raw : RawRecord)
    (h : cleanAccepts ps raw = true) : 10 ≤ promptLen raw.prompt := by
  obtain ⟨p, hp⟩ := cleanAccepts_isSome ps raw h
  rw [cleanAccepts_some ps p raw hp] at h
  by_cases he : (p = "" || p.length < 10) = true
  · rw [if_pos he] at h
    exact absurd h (by simp)
  · simp only [Bool.or_eq_true, decide_eq_true_eq, not_or] at he
    rw [hp]
    simpa [promptLen] using Nat.le_of_not_lt he.2

/-- On a list whose members all pass the acceptance test and are fixed
by normalisation, `cleanData` is the identity. -/
theorem cleanData_of_stable (ps : List (Option String)) (l : List RawRecord)
    (h : ∀ r ∈ l, cleanAccepts ps r = true ∧ normalizeRecord r = r) :
    cleanData ps l = l := by
  induction l with
  | nil => simp [cleanData]
  | cons a t ih =>
    obtain ⟨ha, hn⟩ := h a (List.mem_cons_self a t)
    rw [cleanData, if_pos ha, hn, ih (fun r hr => h r (List.mem_cons_of_mem a hr))]

/-- A record whose prompt is stable passes `cleanData` unchanged. -/
theorem stablePrompt_accepts (ps : List (Option String)) (r : RawRecord)
    (hps : ps = []) (h : stablePrompt r.prompt = true) :
    cleanAccepts ps r = true ∧ normalizeRecord r = r := by
  subst hps
  obtain ⟨pr, pi, po⟩ := r
  cases pr with
  | none => exact absurd h (by simp [stablePrompt])
  | some p =>
    simp only [stablePrompt, Bool.and_eq_true, decide_eq_true_eq] at h
    obtain ⟨h10, hfix⟩ := h
    have hne : ¬ p = "" := by
      intro he
      rw [he] at h10
      exact absurd h10 (by decide)
    constructor
    · unfold cleanAccepts
      simp [hne, Nat.not_lt.mpr h10]
    · simp [normalizeRecord, hfix]

/-! ### Claim C3 (corrected): deduplication in `cleanData` -/

/-- C3 (counterexample). The claim says the output of `clean` never
contains two records with identical normalized prompts.  It does: the
duplicate check compares against the `processedData` accumulator,
which is empty during a run, so a batch containing the same
10-character prompt twice keeps both copies. -/
theorem cleanData_in_batch_duplicates_survive :
    cleanData [] [⟨some "abcdefghij", none, none⟩, ⟨some "abcdefghij", none, none⟩]
      = [⟨some "abcdefghij", none, none⟩, ⟨some "abcdefghij", none, none⟩]
    ∧ ¬ ((cleanData []
          [⟨some "abcdefghij", none, none⟩, ⟨some "abcdefghij", none, none⟩]).map
            RawRecord.prompt).Nodup := by
  exact ⟨by decide, by decide⟩

/-- C3 (amended). `cleanData` deduplicates only against the
`processedData` accumulator as it stood before the call (empty in a
fresh run), never against records accepted earlier in the same batch:
it distributes over concatenation of the input, and every output
record is the normalisation of some input record that passed the
acceptance test (present prompt, length ≥ 10, raw prompt not equal to
any accumulator prompt). -/
theorem cleanData_dedup_accumulator_only :
    (∀ (ps : List (Option String)) (l1 l2 : List RawRecord),
        cleanData ps (l1 ++ l2) = cleanData ps l1 ++ cleanData ps l2)
    ∧ (∀ (ps : List (Option String)) (l : List RawRecord) (r : RawRecord),
        r ∈ cleanData ps l →
          ∃ raw, raw ∈ l ∧ cleanAccepts ps raw = true ∧ r = normalizeRecord raw) :=
  ⟨cleanData_append, cleanData_mem⟩

/-- C3 (witness): the amended characterisation applied to a concrete
accepted record. -/
theorem cleanData_dedup_accumulator_only_witness :
    ∃ raw, raw ∈ [(⟨some "abcdefghij", none, none⟩ : RawRecord)]
      ∧ cleanAccepts [] raw = true
      ∧ (⟨some "abcdefghij", none, none⟩ : RawRecord) = normalizeRecord raw :=
  cleanData_dedup_accumulator_only.2 [] [⟨some "abcdefghij", none, none⟩]
    ⟨some "abcdefghij", none, none⟩ (by decide)

/-! ### Claim C6 (corrected): the length filter of `cleanData` -/

/-- C6 (counterexample). The claim says `clean` never outputs a record
with prompt length < 10.  The length check runs on the raw prompt
before normalisation, and normalisation can shorten it: a 10-character
prompt of four letters and six `@` passes the check and leaves as the
4-character prompt `"aaaa"`. -/
theorem cleanData_outputs_short_prompt :
    cleanData [] [⟨some "aaaa@@@@@@", none, none⟩] = [⟨some "aaaa", none, none⟩]
    ∧ promptLen (some "aaaa") < 10 := by
  exact ⟨by decide, by decide⟩

/-- C6 (amended). The 10-character minimum applies to the raw
(pre-normalisation) prompt: every output record of `cleanData` comes
from an input whose raw prompt has at least 10 characters, and carries
that prompt's normalisation (which may be shorter). -/
theorem cleanData_length_filter_raw (ps : List (Option String)) (l : List RawRecord)
    (r : RawRecord) (hr : r ∈ cleanData ps l) :
    ∃ raw, raw ∈ l ∧ 10 ≤ promptLen raw.prompt
      ∧ r.prompt = raw.prompt.map normalizePrompt := by
  obtain ⟨raw, hm, ha, he⟩ := cleanData_mem ps l r hr
  exact ⟨raw, hm, cleanAccepts_length ps raw ha, by rw [he]; rfl⟩

/-- C6 (witness): the amended statement applied to a concrete output
record. -/
theorem cleanData_length_filter_raw_witness :
    ∃ raw, raw ∈ [(⟨some "hello world", none, none⟩ : RawRecord)]
      ∧ 10 ≤ promptLen raw.prompt
      ∧ (some "hello world").map normalizePrompt = raw.prompt.map normalizePrompt :=
  cleanData_length_filter_raw [] [⟨some "hello world", none, none⟩]
    ⟨(some "hello world").map normalizePrompt, none, none⟩ (by decide)

/-! ### Claim C7 (corrected): idempotence of `cleanData` -/

/-- C7 (counterexample). The claim says `clean` applied to its own
output returns the same set.  It does not: normalisation can shorten a
prompt below 10 characters, so the second application's length check
drops the record. -/
theorem cleanData_twice_drops_record :
    cleanData [] (cleanData [] [⟨some "aaaa@@@@@@", none, none⟩]) = []
    ∧ cleanData [] [⟨some "aaaa@@@@@@", none, none⟩] ≠ [] := by
  exact ⟨by decide, by decide⟩

/-- C7 (amended). With the accumulator empty (as within one run),
`cleanData` is idempotent whenever every record of its output still
has a prompt of at least 10 characters that a second normalisation
leaves unchanged; in general the second pass can drop records whose
normalised prompt fell below the threshold. -/
theorem cleanData_idempotent_on_stable_output (l : List RawRecord)
    (h : ∀ r ∈ cleanData [] l, stablePrompt r.prompt = true) :
    cleanData [] (cleanData [] l) = cleanData [] l :=
  cleanData_of_stable [] (cleanData [] l)
    (fun r hr => stablePrompt_accepts [] r rfl (h r hr))

/-- C7 (witness): idempotence on a batch whose output prompts are
stable. -/
theorem cleanData_idempotent_on_stable_output_witness :
    cleanData [] (cleanData [] [⟨some "hello world.", none, none⟩])
      = cleanData [] [⟨some "hello world.", none, none⟩] :=
  cleanData_idempotent_on_stable_output [⟨some "hello world.", none, none⟩] (by decide)

/-! ### Claim C8 (corrected): mutation along the pipeline -/

/-- C8 (counterexample). The claim says loaded RawRecords are never
modified in place.  `cleanData`'s filter callback assigns the
normalised prompt back onto the accepted record, so after the call the
caller's array holds a changed record: stripping `@` out of
`"hello @@@ world"` leaves `"hello  world"` on the original object. -/
theorem cleanData_post_state_differs :
    cleanDataPost [] [⟨some "hello @@@ world", none, none⟩]
      ≠ [⟨some "hello @@@ world", none, none⟩]
    ∧ cleanDataPost [] [⟨some "hello @@@ world", none, none⟩]
      = [⟨some "hello  world", none, none⟩] := by
  exact ⟨by decide, by decide⟩

/-- C8 (amended). The only in-place mutation in the pipeline is
`cleanData`'s prompt normalisation of accepted records: after the call
the input array holds each accepted record with its prompt normalised
(other fields and rejected records untouched), and `balanceDataset`
returns a sublist of its input (the surviving record objects
themselves, unmodified). -/
theorem cleanData_mutation_profile :
    (∀ (ps : List (Option String)) (l : List RawRecord),
        cleanDataPost ps l
          = l.map (fun r => if cleanAccepts ps r then normalizeRecord r else r))
    ∧ (∀ data : List ResponseRecord, (balanceDataset data).Sublist data) := by
  constructor
  · intro ps l
    induction l with
    | nil => simp [cleanDataPost]
    | cons a t ih => simp [cleanDataPost, ih]
  · intro data
    exact List.filter_sublist data

/-! ### Claims C2, C5, C9: `balanceDataset` -/

/-- Justification of the squared encoding used in `keepsRecord`: for
any `s ≥ 0` with `s² = v` (the source's `stdDev` and its radicand), a
value lies strictly inside the band `(a − 2s, a + 2s)` iff
`(x − a)² < 4v`. -/
theorem twoSigmaBand_iff_sq (a x s v : ℚ) (hs : 0 ≤ s) (hv : s ^ 2 = v) :
    (a - 2 * s < x ∧ x < a + 2 * s) ↔ (x - a) ^ 2 < 4 * v := by
  subst hv
  constructor
  · rintro ⟨h1, h2⟩
    nlinarith
  · intro h
    constructor <;> nlinarith

/-- C2 (code bug). The spec requires `balance` to keep all records of
a zero-variance dataset; the source has no special case, its strict
comparisons `length > avg - 2*stdDev && length < avg + 2*stdDev`
degenerate to `L > L && L < L` when every response has the same
length, and every record is rejected: two records of response length
10 yield variance 0 and an empty result. -/
theorem balanceDataset_zero_variance_rejects_all :
    (rLen10 "p1").response.length = (rLen10 "p2").response.length
    ∧ popVariance [rLen10 "p1", rLen10 "p2"] = 0
    ∧ balanceDataset [rLen10 "p1", rLen10 "p2"] = [] := by
  refine ⟨by decide, ?_, ?_⟩
  · with_unfolding_all decide
  · with_unfolding_all decide

/-- C5 (counterexample). The claim says survival is determined by the
`≤ 2σ` band.  For response lengths `[10,10,10,10,100]` (mean 28,
population stddev 36) the length-100 record sits exactly at distance
`2σ = 72` from the mean — inside the claimed `≤ 2σ` band — yet the
source's strict comparison drops it. -/
theorem balanceDataset_boundary_record_dropped :
    rLen100 ∈ data5
    ∧ ((rLen100.response.length : ℚ) - avgLength data5) ^ 2 ≤ 4 * popVariance data5
    ∧ rLen100 ∉ balanceDataset data5 := by
  refine ⟨by decide, ?_, ?_⟩
  · with_unfolding_all decide
  · with_unfolding_all decide

/-- C5 (amended). `balanceDataset` computes the mean and population
variance once over the full set and keeps exactly the records whose
response length lies strictly inside `(mean − 2σ, mean + 2σ)` (both
comparisons strict); for lengths `[10,10,10,10,100]` the mean is 28,
the population variance 1296 (σ = 36), and exactly the four length-10
records survive — the boundary record of length 100 is removed. -/
theorem balanceDataset_strict_band :
    (∀ (data : List ResponseRecord) (item : ResponseRecord),
        item ∈ balanceDataset data ↔ item ∈ data ∧ keepsRecord data item = true)
    ∧ (∀ (data : List ResponseRecord) (item : ResponseRecord) (s : ℚ),
        0 ≤ s → s ^ 2 = popVariance data →
          (keepsRecord data item = true ↔
            (avgLength data - 2 * s < (item.response.length : ℚ)
              ∧ (item.response.length : ℚ) < avgLength data + 2 * s)))
    ∧ avgLength data5 = 28
    ∧ popVariance data5 = 1296
    ∧ balanceDataset data5 = [rLen10 "p1", rLen10 "p2", rLen10 "p3", rLen10 "p4"] := by
  refine ⟨?_, ?_, ?_, ?_, ?_⟩
  · intro data item
    simp [balanceDataset, List.mem_filter]
  · intro data item s hs hv
    rw [keepsRecord, decide_eq_true_eq]
    exact (twoSigmaBand_iff_sq (avgLength data) (item.response.length : ℚ) s
      (popVariance data) hs hv).symm
  · with_unfolding_all decide
  · with_unfolding_all decide
  · with_unfolding_all decide

/-- C5 (witness): the strict-band reading applied at the boundary
record of the spec example, with σ = 36. -/
theorem balanceDataset_strict_band_witness :
    keepsRecord data5 rLen100 = true ↔
      (avgLength data5 - 2 * 36 < (rLen100.response.length : ℚ)
        ∧ (rLen100.response.length : ℚ) < avgLength data5 + 2 * 36) :=
  balanceDataset_strict_band.2.1 data5 rLen100 36 (by norm_num)
    (by with_unfolding_all decide)

/-- C9 (confirmed). Empty input to `balance` yields empty output: the
filter of the empty list is empty, and no statistic of the empty set
is ever consulted (in the source the 0/0 statistics are `NaN`, making
every comparison false, but no comparison is even evaluated). -/
theorem balanceDataset_empty : balanceDataset [] = [] := rfl

/-! ### Claim C10: order and prompt preservation in `getGPT4Responses` -/

/-- The per-batch map shifts positions across concatenation. -/
theorem batchResponses_append (gen : ℕ → Option String) (l1 l2 : List AugRecord) :
    ∀ i, batchResponses gen i (l1 ++ l2)
      = batchResponses gen i l1 ++ batchResponses gen (i + l1.length) l2 := by
  induction l1 with
  | nil => intro i; simp [batchResponses]
  | cons a t ih =>
    intro i
    simp only [List.cons_append, batchResponses, List.append_eq, List.length_cons]
    rw [ih (i + 1)]
    have hlen : i + (t.length + 1) = i + 1 + t.length := by omega
    rw [hlen]

/-- Batching is transparent: processing in batches of 5, filtering
each batch and concatenating gives exactly the filtered per-item map
of the whole input. -/
theorem getGPT4Responses_eq_aux (gen : ℕ → Option String) :
    ∀ (n i : ℕ) (data : List AugRecord), data.length ≤ n →
      getGPT4Responses gen i data = (batchResponses gen i data).reduceOption := by
  intro n
  induction n with
  | zero =>
    intro i data h
    have hd : data = [] := List.length_eq_zero.mp (Nat.le_zero.mp h)
    subst hd
    rw [getGPT4Responses]
    simp [batchResponses]
  | succ n ih =>
    intro i data h
    by_cases hd : data = []
    · subst hd
      rw [getGPT4Responses]
      simp [batchResponses]
    · rw [getGPT4Responses, dif_neg hd]
      conv_rhs => rw [← List.take_append_drop 5 data]
      rw [batchResponses_append, List.reduceOption_append]
      congr 1
      by_cases h5 : data.length ≤ 5
      · have hdrop : data.drop 5 = [] := List.drop_eq_nil_of_le h5
        rw [hdrop]
        rw [getGPT4Responses]
        simp [batchResponses]
      · have hlen : (data.take 5).length = 5 := by
          simp only [List.length_take]
          omega
        rw [hlen]
        exact ih (i + 5) (data.drop 5) (by simp only [List.length_drop]; omega)

/-- Each batch's surviving records keep their originating prompts as a
subsequence of the input prompts, in order. -/
theorem batchResponses_prompt_sublist (gen : ℕ → Option String) :
    ∀ (data : List AugRecord) (i : ℕ),
      ((batchResponses gen i data).reduceOption.map ResponseRecord.prompt).Sublist
        (data.map AugRecord.prompt) := by
  intro data
  induction data with
  | nil => intro i; simp [batchResponses]
  | cons a t ih =>
    intro i
    simp only [batchResponses, List.map_cons]
    cases hg : gen i with
    | none =>
      rw [respond, hg]
      simp only [Option.map_none', List.reduceOption_cons_of_none]
      exact (ih (i + 1)).cons _
    | some txt =>
      rw [respond, hg]
      simp only [Option.map_some', List.reduceOption_cons_of_some, List.map_cons]
      exact (ih (i + 1)).cons₂ _

/-- C10 (confirmed).  For every input and every pattern of per-item
success/failure (the oracle `gen`), the batched collection equals the
in-order per-item map with failures filtered out — so the result lists
the successful items in the original input order, each output record
carrying the prompt of the input record that produced it — and the
output prompts form a subsequence of the input prompts. -/
theorem getGPT4Responses_order_and_prompts (gen : ℕ → Option String)
    (data : List AugRecord) :
    getGPT4Responses gen 0 data = (batchResponses gen 0 data).reduceOption
    ∧ ((getGPT4Responses gen 0 data).map ResponseRecord.prompt).Sublist
        (data.map AugRecord.prompt) := by
  have he := getGPT4Responses_eq_aux gen data.length 0 data (Nat.le_refl _)
  refine ⟨he, ?_⟩
  rw [he]
  exact batchResponses_prompt_sublist gen data 0

/-! ### Claim C1: checkpointing and early stopping -/

/-- C1 (confirmed). In every state of the training loop a checkpoint
is recorded exactly when the epoch's validation loss strictly improves
on the best seen so far (the initial best being infinity); improvement
also resets the patience counter to 0 and updates the best, while a
non-improvement leaves the checkpoints unchanged, increments patience,
and fires the `break` exactly when the incremented patience reaches
`maxPatience = 3` — in which case the loop returns at once, running no
further epoch.  On the synthetic loss sequence
`[1.0, 0.9, 0.95, 0.96, 0.97]` with 10 epochs requested, training
stops after the 5th epoch with checkpoints exactly for epochs 1
and 2. -/
theorem trainingLoop_checkpoint_early_stopping :
    (∀ (epoch : ℕ) (l : ℚ) (s : LoopState),
        ((epochDecision epoch l s).1.checkpoints = epoch :: s.checkpoints
            ↔ lossImproves l s.bestLoss = true)
        ∧ (lossImproves l s.bestLoss = true →
            (epochDecision epoch l s).1.bestLoss = some l
              ∧ (epochDecision epoch l s).1.patienceCount = 0
              ∧ (epochDecision epoch l s).2 = false)
        ∧ (lossImproves l s.bestLoss = false →
            (epochDecision epoch l s).1.checkpoints = s.checkpoints
              ∧ (epochDecision epoch l s).1.patienceCount = s.patienceCount + 1
              ∧ ((epochDecision epoch l s).2 = true
                    ↔ maxPatience ≤ s.patienceCount + 1)))
    ∧ (∀ (cfg : TrainerConfig) (losses : ℕ → ℚ) (rem epoch : ℕ) (s : LoopState),
        (epochDecision epoch (losses epoch) s).2 = true →
          trainingLoopAux cfg losses (rem + 1) epoch s
            = ((epochDecision epoch (losses epoch) s).1, epoch, true))
    ∧ (trainingLoop defaultConfig synthLosses 10).1.checkpoints = [2, 1]
    ∧ (trainingLoop defaultConfig synthLosses 10).2 = (5, true) := by
  refine ⟨?_, ?_, by decide, by decide⟩
  · intro epoch l s
    cases him : lossImproves l s.bestLoss with
    | true =>
      refine ⟨by simp [epochDecision, him], fun _ => by simp [epochDecision, him], ?_⟩
      intro hfalse
      cases hfalse
    | false =>
      refine ⟨?_, ?_, ?_⟩
      · simp [epochDecision, him]
      · intro htrue
        cases htrue
      · intro _
        simp [epochDecision, him, maxPatience]
  · intro cfg losses rem epoch s hstop
    rw [trainingLoopAux]
    rcases hd : epochDecision epoch (losses epoch) s with ⟨s1, b⟩
    rw [hd] at hstop
    simp only at hstop
    subst hstop
    simp

/-- C1 (witness): a non-improving epoch of the synthetic run
(epoch 3, loss 0.95 against best 0.9) increments patience without
stopping. -/
theorem trainingLoop_checkpoint_early_stopping_witness :
    (epochDecision 3 (mkRat 95 100) ⟨some (mkRat 9 10), 0, [2, 1], 0⟩).1.patienceCount
        = 0 + 1
    ∧ ((epochDecision 3 (mkRat 95 100) ⟨some (mkRat 9 10), 0, [2, 1], 0⟩).2 = true
        ↔ maxPatience ≤ 0 + 1) :=
  ((trainingLoop_checkpoint_early_stopping.1 3 (mkRat 95 100)
    ⟨some (mkRat 9 10), 0, [2, 1], 0⟩).2.2 (by decide)).2

/-! ### Claim C4: learning-rate schedule -/

/-- C4 (confirmed). No adjustment occurs while the epoch index is at
most the warmup step count (500 by default).  Past warmup, the rate is
set to `baseLR × 0.95 ^ ⌊epoch / 2⌋`, computed from the original base
rate and independent of the optimizer's current (possibly previously
decayed) rate; with the default configuration, epoch 502 yields
`1e-5 × 0.95 ^ 251`. -/
theorem adjustLearningRate_schedule :
    (∀ (cfg : TrainerConfig) (epoch : ℕ) (lr : ℚ),
        epoch ≤ cfg.warmupSteps → adjustLearningRate cfg epoch lr = lr)
    ∧ (∀ (cfg : TrainerConfig) (epoch : ℕ) (lr : ℚ),
        cfg.warmupSteps < epoch →
          adjustLearningRate cfg epoch lr
            = cfg.learningRate * (95 / 100 : ℚ) ^ (epoch / 2))
    ∧ (∀ (cfg : TrainerConfig) (epoch : ℕ) (lr1 lr2 : ℚ),
        cfg.warmupSteps < epoch →
          adjustLearningRate cfg epoch lr1 = adjustLearningRate cfg epoch lr2)
    ∧ defaultConfig.warmupSteps = 500
    ∧ defaultConfig.learningRate = 1 / 100000
    ∧ (∀ lr : ℚ,
        adjustLearningRate defaultConfig 502 lr
          = (1 / 100000 : ℚ) * (95 / 100 : ℚ) ^ 251) := by
  refine ⟨?_, ?_, ?_, rfl, rfl, ?_⟩
  · intro cfg epoch lr h
    rw [adjustLearningRate, if_neg (Nat.not_lt.mpr h)]
  · intro cfg epoch lr h
    rw [adjustLearningRate, if_pos h]
  · intro cfg epoch lr1 lr2 h
    rw [adjustLearningRate, if_pos h, adjustLearningRate, if_pos h]
  · intro lr
    rw [adjustLearningRate, if_pos (by norm_num [defaultConfig])]
    norm_num [defaultConfig]

/-- C4 (witness): epoch 500 leaves the rate untouched; epoch 502
produces the decayed value regardless of the current rate. -/
theorem adjustLearningRate_schedule_witness :
    adjustLearningRate defaultConfig 500 (mkRat 1 100000) = mkRat 1 100000
    ∧ adjustLearningRate defaultConfig 502 0
        = (1 / 100000 : ℚ) * (95 / 100 : ℚ) ^ 251 :=
  ⟨adjustLearningRate_schedule.1 defaultConfig 500 (mkRat 1 100000) (by decide),
    adjustLearningRate_schedule.2.2.2.2.2 0⟩

